import Mathlib

/-!
Verification of the PDF outline extractor in `Challenge_1a/process_pdfs.py`.

The Python module is embedded shallowly:

* a PyMuPDF text span becomes a `RawSpan`; a parsed document is the nested
  page → block → line → span structure the code walks in
  `extract_text_blocks`;
* floating point font sizes and y coordinates are modelled as rationals
  (`Rat`): the code only uses order comparisons, equality, `max`, and the
  literal constants `20`, `12` and `+ 1`, and on the non-NaN floats produced
  by the parser these operations agree with exact rational arithmetic;
* Python strings are Lean `String`s; `str.strip`, `str.split`, `str.lower`,
  `str.isupper` and the regular expression used by the scorer are modelled for
  ASCII text (the code's heuristics are designed around ASCII punctuation and
  Latin letters, and all claims are settled on such inputs);
* `sorted` in Python is a stable sort; it is embedded as
  `List.insertionSort`, which Mathlib proves stable, and the stable sort with
  respect to a total preorder is extensionally unique;
* `statistics.mode` (Python ≥ 3.8) returns the first value of maximal
  multiplicity in data order; the `StatisticsError` fallback at line 47 of the
  source -- a stable descending sort of `Counter` items by count, taking the
  head -- computes the same value, so both branches are embedded as
  `modeFirst`;
* `json.dumps` serialisation is out of scope; the JSON value that would be
  serialised is modelled by the inductive type `Json`.
-/

/-! ### ASCII models of the Python string primitives -/

/-- ASCII whitespace, as matched by Python's `str.strip`, `str.split` and the
regex class `\s` on ASCII text. -/
def isSpaceA (c : Char) : Bool :=
  c = ' ' || c = '\t' || c = '\n' || c = '\r' || c = '\x0b' || c = '\x0c'

/-- ASCII decimal digit, the regex class `\d` on ASCII text. -/
def isDigitA (c : Char) : Bool :=
  '0' ≤ c && c ≤ '9'

/-- The regex class `[A-Z]`. -/
def isUpperA (c : Char) : Bool :=
  'A' ≤ c && c ≤ 'Z'

/-- ASCII lowercase letter. -/
def isLowerA (c : Char) : Bool :=
  'a' ≤ c && c ≤ 'z'

/-- Strip `isSpaceA` characters from both ends of a character list. -/
def stripChars (cs : List Char) : List Char :=
  ((cs.dropWhile isSpaceA).reverse.dropWhile isSpaceA).reverse

/-- Python `str.strip()` (ASCII whitespace). -/
def pyStrip (s : String) : String :=
  String.mk (stripChars s.toList)

/-- Helper for `countWords`: the flag records whether the previous character
was inside a word, so each maximal non-whitespace run is counted once. -/
def countWordsAux : Bool → List Char → Nat
  | _, [] => 0
  | inWord, c :: t =>
    if isSpaceA c then countWordsAux false t
    else (if inWord then 0 else 1) + countWordsAux true t

/-- Python `len(s.split())`: the number of maximal non-whitespace runs. -/
def countWords (s : String) : Nat :=
  countWordsAux false s.toList

/-- Python `s.lower()` for ASCII letters (`Char.toLower` lowers exactly
`A`–`Z`). -/
def lowerAscii (s : String) : String :=
  String.mk (s.toList.map Char.toLower)

/-- Does `needle` occur as a contiguous substring of `hay`?  Models Python's
`needle in hay`. -/
def listContainsSub (needle : List Char) : List Char → Bool
  | [] => needle.isEmpty
  | c :: t => needle.isPrefixOf (c :: t) || listContainsSub needle t

/-- Python `needle in hay` on strings. -/
def strContainsSub (needle hay : String) : Bool :=
  listContainsSub needle.toList hay.toList

/-- Python `s.isupper()` restricted to ASCII: at least one cased character and
no lowercase character. -/
def pyIsUpper (s : String) : Bool :=
  s.toList.any (fun c => isLowerA c || isUpperA c) && s.toList.all (fun c => !isLowerA c)

/-! ### The scorer's regular expression

`re.compile(r'^\s*(\d+(\.\d+)*\.?|[A-Z]\.)\s+')`, used with `re.match`
(anchored at the start of the text), process_pdfs.py line 68.

The backtracking search of `re.match` is deterministic here, so the matcher
below is a plain greedy parse:

* `\s*` can be taken greedily: neither alternative of the group starts with a
  whitespace character, so giving back whitespace never helps;
* `\d+` can be taken greedily: after giving back a digit the next character is
  a digit, which can start neither `\.`, nor `\.?`-then-`\s`, nor `\s+`;
* each `(\.\d+)` group can be taken greedily whenever a dot followed by a
  digit is ahead: giving back a group leaves the reader before `\.` followed
  by a digit, and after the optional `\.` a digit can never satisfy `\s+`;
* `\.?` consumes a dot when one is ahead: if the character after the dot is
  not whitespace, the match fails whether or not the dot is consumed, because
  the dot itself is not whitespace either.
-/

/-- Consume the `(\.\d+)*` part greedily: repeatedly drop a dot followed by a
nonempty digit run, as long as the dot is immediately followed by a digit.
Digits at the head continue the digit run of the current group; the function
is only ever entered at a non-digit position (right after `\d+` has been
consumed), so that case arises solely from its own recursion. -/
def dropDotDigitGroups : List Char → List Char
  | [] => []
  | c :: t =>
    if isDigitA c then dropDotDigitGroups t
    else if c = '.' then
      match t with
      | [] => ['.']
      | c2 :: t2 => if isDigitA c2 then dropDotDigitGroups t2 else '.' :: c2 :: t2
    else c :: t

/-- Does `re.match(r'^\s*(\d+(\.\d+)*\.?|[A-Z]\.)\s+', s)` succeed? -/
def headingPatternMatches (s : String) : Bool :=
  match s.toList.dropWhile isSpaceA with
  | [] => false
  | c :: rest =>
    if isDigitA c then
      -- branch `\d+(\.\d+)*\.?` then `\s+`
      let afterDigits := rest.dropWhile isDigitA
      let afterGroups := dropDotDigitGroups afterDigits
      let afterOptDot := match afterGroups with
        | '.' :: r => r
        | r => r
      match afterOptDot with
      | c2 :: _ => isSpaceA c2
      | [] => false
    else if isUpperA c then
      -- branch `[A-Z]\.` then `\s+`
      match rest with
      | '.' :: c2 :: _ => isSpaceA c2
      | _ => false
    else false

/-! ### Data model (spec section 3, process_pdfs.py lines 22–33) -/

/-- One inline text run as produced by the PDF parser, before extraction:
`s["text"]`, `s["size"]`, `s["font"]`, `s["bbox"][1]`. -/
structure RawSpan where
  text : String
  size : Rat
  font : String
  y0 : Rat
deriving DecidableEq, Repr

/-- A parsed document: pages, each a list of blocks, each a list of lines,
each a list of spans -- the nesting walked by `extract_text_blocks`. -/
abbrev ParsedDoc := List (List (List (List RawSpan)))

/-- A `TextSpan` record of the extracted sequence (spec section 3). -/
structure TextSpan where
  text : String
  font_size : Rat
  font_name : String
  page : Nat
  y_pos : Rat
deriving DecidableEq, Repr

/-- `title_info`, process_pdfs.py line 62. -/
structure TitleInfo where
  text : String
  page : Nat
deriving DecidableEq, Repr

/-- A leveled heading, process_pdfs.py lines 109–114. -/
structure Heading where
  level : String
  text : String
  page : Nat
  y_pos : Rat
deriving DecidableEq, Repr

/-- A section produced by `group_text_into_sections`, lines 142–147. -/
structure DocSection where
  heading_text : String
  heading_level : String
  page : Nat
  content : String
deriving DecidableEq, Repr

/-- The JSON value that `generate_outline_from_pdf` would serialise. -/
inductive Json where
  | s (v : String)
  | n (v : Nat)
  | arr (items : List Json)
  | obj (fields : List (String × Json))

/-- Field lookup in a JSON object. -/
def jsonField (j : Json) (k : String) : Option Json :=
  match j with
  | .obj fs => (fs.find? (fun f => f.1 == k)).map (fun f => f.2)
  | _ => none

/-- Does a JSON object carry the key `k`? -/
def jsonHasKey (j : Json) (k : String) : Bool :=
  (jsonField j k).isSome

/-! ### Span Extractor (`extract_text_blocks`, lines 10–33) -/

/-- Embedding of `extract_text_blocks`: walk pages (optionally limited to the
first `page_limit`), then blocks, lines and spans, strip each span's text,
drop the spans whose stripped text is empty, and record the 1-based page
number and the bounding box top. -/
def extract_text_blocks (doc : ParsedDoc) (page_limit : Option Nat) : List TextSpan :=
  let pages := match page_limit with
    | none => doc
    | some k => doc.take (min doc.length k)
  pages.enum.flatMap (fun pe =>
    pe.2.flatMap (fun b =>
      b.flatMap (fun l =>
        l.filterMap (fun sp =>
          let t := pyStrip sp.text
          if t = "" then none
          else some { text := t, font_size := sp.size, font_name := sp.font,
                      page := pe.1 + 1, y_pos := sp.y0 }))))

/-! ### Body-Style Estimator (`get_body_text_style`, lines 35–48) -/

/-- First value of maximal multiplicity in data order.  This is
`statistics.mode` on Python ≥ 3.8, and also the value computed by the
`StatisticsError` fallback at line 47 (stable descending sort of `Counter`
items by count, first item): `Counter` preserves first-insertion order and
Python's sort is stable, so both produce the earliest value with the largest
count. -/
def modeFirst (l : List Rat) : Rat :=
  match l with
  | [] => 0
  | x :: xs => xs.foldl (fun best v => if l.count v > l.count best then v else best) x

/-- Embedding of `get_body_text_style`. -/
def get_body_text_style (blocks : List TextSpan) : Rat × String :=
  if blocks = [] then (12, "default")
  else
    let font_sizes := (blocks.filter (fun b => b.font_size < 20)).map (fun b => b.font_size)
    let font_sizes := if font_sizes = [] then blocks.map (fun b => b.font_size) else font_sizes
    (modeFirst font_sizes, "")

/-! ### Title Selector (`identify_and_classify_headings`, lines 55–63) -/

/-- Embedding of the title-finding loop: the first span of page 1 whose font
size equals the largest page-1 font size.  `find?` models the `for`/`break`
loop at lines 60–63. -/
def findTitle (blocks : List TextSpan) : Option TitleInfo :=
  match blocks.filter (fun b => b.page == 1) with
  | [] => none
  | f :: fs =>
    let maxFont := (fs.map (fun b => b.font_size)).foldl max f.font_size
    match (f :: fs).find? (fun b => b.font_size == maxFont) with
    | some b => some ⟨b.text, 1⟩
    | none => none

/-! ### Heading Candidate Scorer (lines 66–97) -/

/-- The `continue` guard at lines 76–77: skip a span whose text equals the
selected title's text on page 1. -/
def titleSkip (ti : Option TitleInfo) (b : TextSpan) : Bool :=
  match ti with
  | some t => b.text == t.text && b.page == 1
  | none => false

/-- The scoring block at lines 79–94, with the score accumulated exactly as
in the source. -/
def scoreOf (b : TextSpan) (body_size : Rat) : Nat :=
  let score : Nat := 0
  let score := if b.font_size > body_size + 1 then score + 2 else score
  let score := if strContainsSub "bold" (lowerAscii b.font_name) then score + 1 else score
  let score := if headingPatternMatches b.text then score + 5 else score
  let score := if countWords b.text < 15 then score + 1 else score
  let score := if pyIsUpper b.text && decide (b.text.length > 2) then score + 1 else score
  score

/-- The candidate loop at lines 70–97: spans that survive the title guard and
score at least 4. -/
def headingCandidates (blocks : List TextSpan) (body_size : Rat)
    (title_info : Option TitleInfo) : List TextSpan :=
  blocks.filter (fun b => !titleSkip title_info b && decide (scoreOf b body_size ≥ 4))

/-! ### Level Classifier (lines 103–116) -/

/-- Line 104: `sorted(list(set(...)), reverse=True)` — the distinct candidate
font sizes in descending order. -/
def classStyles (cands : List TextSpan) : List Rat :=
  List.insertionSort (fun a b : Rat => b ≤ a) ((cands.map (fun b => b.font_size)).dedup)

/-- Line 105 and the `in style_map` lookup at line 108: the dictionary
`{style: f"H{i+1}"}` over the first three distinct styles.  Lookup by the
first matching key is the dictionary lookup, since the styles are distinct. -/
def styleMapGo (sz : Rat) : List Rat → Nat → Option String
  | [], _ => none
  | s :: rest, i => if s = sz then some ("H" ++ toString (i + 1)) else styleMapGo sz rest (i + 1)

/-- Lookup of `sz` in the dictionary built at line 105: the keys are the
first three distinct styles, the value of the key at rank `i` (zero-based) is
`"H" ++ toString (i+1)`.  First-match lookup agrees with the dictionary
because the keys are distinct. -/
def styleMapLookup (styles : List Rat) (sz : Rat) : Option String :=
  styleMapGo sz (styles.take 3) 0

/-- Lines 107–114: keep the candidates whose size received a level, building
`Heading` records in candidate order. -/
def leveledHeadings (cands : List TextSpan) : List Heading :=
  let styles := classStyles cands
  cands.filterMap (fun b =>
    (styleMapLookup styles b.font_size).map (fun lv =>
      { level := lv, text := b.text, page := b.page, y_pos := b.y_pos }))

/-- The sort key ordering of line 116: lexicographic `(page, y_pos)`. -/
def hLE (a b : Heading) : Prop :=
  a.page < b.page ∨ (a.page = b.page ∧ a.y_pos ≤ b.y_pos)

instance : DecidableRel hLE := fun a b => by
  unfold hLE; exact inferInstance

instance : IsTotal Heading hLE := by
  refine ⟨fun a b => ?_⟩
  rcases Nat.lt_trichotomy a.page b.page with h | h | h
  · exact Or.inl (Or.inl h)
  · rcases le_total a.y_pos b.y_pos with hy | hy
    · exact Or.inl (Or.inr ⟨h, hy⟩)
    · exact Or.inr (Or.inr ⟨h.symm, hy⟩)
  · exact Or.inr (Or.inl h)

instance : IsTrans Heading hLE := by
  refine ⟨fun a b c hab hbc => ?_⟩
  rcases hab with h1 | ⟨e1, y1⟩
  · rcases hbc with h2 | ⟨e2, _⟩
    · exact Or.inl (h1.trans h2)
    · exact Or.inl (e2 ▸ h1)
  · rcases hbc with h2 | ⟨e2, y2⟩
    · exact Or.inl (e1 ▸ h2)
    · exact Or.inr ⟨e1.trans e2, y1.trans y2⟩

/-- Embedding of `identify_and_classify_headings` (lines 50–116): find the
title, collect scored candidates, assign levels by distinct-size rank, and
stably sort the leveled headings by `(page, y_pos)`.  Python's `sorted` is
the stable sort with respect to the key ordering, embedded as
`List.insertionSort`. -/
def identify_and_classify_headings (blocks : List TextSpan) (body_size : Rat) :
    List Heading × Option TitleInfo :=
  let title_info := findTitle blocks
  let cands := headingCandidates blocks body_size title_info
  if cands = [] then ([], title_info)
  else (List.insertionSort hLE (leveledHeadings cands), title_info)

/-! ### Section Grouper (`group_text_into_sections`, lines 118–148) -/

/-- Line 133: the block lies strictly after the section heading's position. -/
def isAfterStart (h : Heading) (b : TextSpan) : Bool :=
  b.page > h.page || (b.page == h.page && b.y_pos > h.y_pos)

/-- Lines 128–129 and 134: the block lies strictly before the next heading's
position; `none` models the `float('inf')` bound of the last section, which
every block satisfies. -/
def isBeforeEnd (next : Option Heading) (b : TextSpan) : Bool :=
  match next with
  | none => true
  | some nh => b.page < nh.page || (b.page == nh.page && b.y_pos < nh.y_pos)

/-- Line 137: the block's text and page coincide with some recognised
heading. -/
def isHeadingBlock (headings : List Heading) (b : TextSpan) : Bool :=
  headings.any (fun h => h.text == b.text && h.page == b.page)

/-- The content accumulation of lines 131–140 for one heading. -/
def sectionContent (blocks : List TextSpan) (headings : List Heading)
    (h : Heading) (next : Option Heading) : String :=
  pyStrip (blocks.foldl (fun acc b =>
    if isAfterStart h b && isBeforeEnd next b && !isHeadingBlock headings b
    then acc ++ b.text ++ "\n" else acc) "")

/-- The `for i, heading in enumerate(headings)` loop: each heading is paired
with its successor (`headings[i+1]`, absent for the last). -/
def sectionsAux (blocks : List TextSpan) (headings : List Heading) :
    List Heading → List DocSection
  | [] => []
  | h :: rest =>
    { heading_text := h.text, heading_level := h.level, page := h.page,
      content := sectionContent blocks headings h rest.head? } ::
    sectionsAux blocks headings rest

/-- Embedding of `group_text_into_sections`. -/
def group_text_into_sections (blocks : List TextSpan) (headings : List Heading) :
    List DocSection :=
  if headings = [] then []
  else sectionsAux blocks headings headings

/-! ### Top level (`generate_outline_from_pdf`, lines 150–169) -/

/-- The success branch of `generate_outline_from_pdf`, lines 161–169, for a
non-empty extracted span sequence. -/
def outlineJsonOfBlocks (blocks : List TextSpan) : Json :=
  let body_size := (get_body_text_style blocks).1
  let res := identify_and_classify_headings blocks body_size
  let title := match res.2 with
    | some t => t.text
    | none => "Untitled"
  let outline := res.1.map (fun h =>
    Json.obj [("level", Json.s h.level), ("text", Json.s h.text), ("page", Json.n h.page)])
  Json.obj [("title", Json.s title), ("outline", Json.arr outline)]

/-- Embedding of `generate_outline_from_pdf`.  The input is the outcome of
`fitz.open`: `Except.error e` when the document cannot be opened (the
`except` branch at lines 154–155), `Except.ok doc` otherwise. -/
def generate_outline_from_pdf (input : Except String ParsedDoc) : Json :=
  match input with
  | .error e => Json.obj [("error", Json.s ("Could not open PDF: " ++ e))]
  | .ok doc =>
    let blocks := extract_text_blocks doc none
    if blocks = [] then Json.obj [("title", Json.s ""), ("outline", Json.arr [])]
    else outlineJsonOfBlocks blocks

/-- The outline entry list built by the comprehension at line 166, viewed as
records rather than JSON. -/
structure OutlineEntry where
  level : String
  text : String
  page : Nat
deriving DecidableEq, Repr

/-- The outline entries `generate_outline_from_pdf` emits for a parsed
document. -/
def outlineEntries (doc : ParsedDoc) : List OutlineEntry :=
  let blocks := extract_text_blocks doc none
  if blocks = [] then []
  else
    let body_size := (get_body_text_style blocks).1
    (identify_and_classify_headings blocks body_size).1.map (fun h =>
      { level := h.level, text := h.text, page := h.page })

/-! ### General helper lemmas -/

/-- Both components of `identify_and_classify_headings` return the title
found at lines 56–63, whether or not candidates exist. -/
theorem identify_snd (blocks : List TextSpan) (body_size : Rat) :
    (identify_and_classify_headings blocks body_size).2 = findTitle blocks := by
  simp only [identify_and_classify_headings]
  split <;> rfl

/-- Python's `max` over a non-empty list: the fold is a member and an upper
bound. -/
theorem foldl_max_spec (x : Rat) (xs : List Rat) :
    xs.foldl max x ∈ x :: xs ∧ ∀ v ∈ x :: xs, v ≤ xs.foldl max x := by
  induction xs generalizing x with
  | nil => simp
  | cons y ys ih =>
    obtain ⟨hmem, hub⟩ := ih (max x y)
    constructor
    · rcases List.mem_cons.mp hmem with h | h
      · rcases max_choice x y with hc | hc
        · exact List.mem_cons.mpr (Or.inl (h.trans hc))
        · exact List.mem_cons.mpr (Or.inr (List.mem_cons.mpr (Or.inl (h.trans hc))))
      · exact List.mem_cons.mpr (Or.inr (List.mem_cons.mpr (Or.inr h)))
    · intro v hv
      rcases List.mem_cons.mp hv with h | h
      · subst h
        exact le_trans (le_max_left v y) (hub _ (List.mem_cons_self _ _))
      · rcases List.mem_cons.mp h with h2 | h2
        · subst h2
          exact le_trans (le_max_right x v) (hub _ (List.mem_cons_self _ _))
        · exact hub _ (List.mem_cons.mpr (Or.inr h2))

/-! ### Claim C3 — shape of the open-failure result -/

/-- C3 counterexample: on the unparsable input modelled by
`Except.error "boom"`, the result of `generate_outline_from_pdf` is not the
claimed `{"title": "", "outline": [], "error": ...}` object — it carries no
`"title"` key and no `"outline"` key at all, only `"error"`. -/
theorem C3_counterexample :
    jsonHasKey (generate_outline_from_pdf (Except.error "boom")) "title" = false ∧
    jsonHasKey (generate_outline_from_pdf (Except.error "boom")) "outline" = false ∧
    generate_outline_from_pdf (Except.error "boom") ≠
      Json.obj [("title", Json.s ""), ("outline", Json.arr []),
                ("error", Json.s "Could not open PDF: boom")] := by
  refine ⟨by decide, by decide, ?_⟩
  simp [generate_outline_from_pdf]

/-- C3 (amended): for every input whose document cannot be opened, the
per-document result is exactly `{"error": "Could not open PDF: " + e}`; it
contains an `"error"` field but, contrary to the original claim, no
`"title"` and no `"outline"` field, so it is not a structurally valid
Outline shape. -/
theorem C3_open_failure (e : String) :
    generate_outline_from_pdf (Except.error e) =
      Json.obj [("error", Json.s ("Could not open PDF: " ++ e))] ∧
    jsonHasKey (generate_outline_from_pdf (Except.error e)) "error" = true ∧
    jsonHasKey (generate_outline_from_pdf (Except.error e)) "title" = false ∧
    jsonHasKey (generate_outline_from_pdf (Except.error e)) "outline" = false := by
  refine ⟨rfl, ?_, ?_, ?_⟩ <;>
    simp [jsonHasKey, jsonField, generate_outline_from_pdf, List.find?]

/-! ### Claim C8 — empty span sequence after successful parse -/

/-- C8: a document that parses successfully but yields zero extracted spans
produces exactly `{"title": "", "outline": []}`, with no `"error"` field. -/
theorem C8_empty_document (doc : ParsedDoc)
    (h : extract_text_blocks doc none = []) :
    generate_outline_from_pdf (Except.ok doc) =
      Json.obj [("title", Json.s ""), ("outline", Json.arr [])] ∧
    jsonHasKey (generate_outline_from_pdf (Except.ok doc)) "error" = false := by
  have hg : generate_outline_from_pdf (Except.ok doc)
      = Json.obj [("title", Json.s ""), ("outline", Json.arr [])] := by
    simp [generate_outline_from_pdf, h]
  exact ⟨hg, by rw [hg]; decide⟩

/-- A parsed document whose only span has whitespace-only text, so extraction
drops it and the span sequence is empty. -/
def w8doc : ParsedDoc :=
  [[[[{ text := "  ", size := 12, font := "Helvetica", y0 := 0 }]]], [[]]]

theorem C8_empty_document_witness :
    generate_outline_from_pdf (Except.ok w8doc) =
      Json.obj [("title", Json.s ""), ("outline", Json.arr [])] ∧
    jsonHasKey (generate_outline_from_pdf (Except.ok w8doc)) "error" = false :=
  C8_empty_document w8doc (by decide)

/-! ### Claim C4 — title selection -/

/-- C4: if the span sequence has page-1 spans, the title is the text of the
first page-1 span (in document order) whose font size equals the maximum
page-1 font size; if there is no page-1 span, no title is found, and for a
non-empty span sequence the caller then emits the default `"Untitled"`. -/
theorem C4_title_selection (blocks : List TextSpan) :
    (blocks.filter (fun s => s.page == 1) = [] → findTitle blocks = none) ∧
    (blocks.filter (fun s => s.page == 1) ≠ [] →
      ∃ m pre b post,
        blocks.filter (fun s => s.page == 1) = pre ++ b :: post ∧
        m ∈ (blocks.filter (fun s => s.page == 1)).map (fun s => s.font_size) ∧
        (∀ v ∈ (blocks.filter (fun s => s.page == 1)).map (fun s => s.font_size), v ≤ m) ∧
        b.font_size = m ∧
        (∀ a ∈ pre, a.font_size ≠ m) ∧
        findTitle blocks = some ⟨b.text, 1⟩) ∧
    (blocks ≠ [] → blocks.filter (fun s => s.page == 1) = [] →
      jsonField (outlineJsonOfBlocks blocks) "title" = some (Json.s "Untitled")) := by
  refine ⟨?_, ?_, ?_⟩
  · intro h
    unfold findTitle
    rw [h]
  · intro h
    obtain ⟨f, fs, hfp⟩ := List.exists_cons_of_ne_nil h
    set m := (fs.map (fun b => b.font_size)).foldl max f.font_size with hm
    obtain ⟨hmem, hub⟩ := foldl_max_spec f.font_size (fs.map (fun b => b.font_size))
    have hmem2 : m ∈ (f :: fs).map (fun b => b.font_size) := by
      simpa using hmem
    obtain ⟨bm, hbm, hbme⟩ := List.mem_map.mp hmem2
    have hfind : (f :: fs).find? (fun b => b.font_size == m) ≠ none := by
      rw [Ne, List.find?_eq_none]
      push_neg
      exact ⟨bm, hbm, by simpa using hbme⟩
    obtain ⟨r, hr⟩ := Option.ne_none_iff_exists'.mp hfind
    obtain ⟨hpr, pre, post, hsplit, hpre⟩ := List.find?_eq_some.mp hr
    refine ⟨m, pre, r, post, by rw [hfp, hsplit], ?_, ?_, by simpa using hpr, ?_, ?_⟩
    · rw [hfp]; exact hmem2
    · intro v hv
      rw [hfp] at hv
      simp only [List.mem_map] at hv
      obtain ⟨a, ha, hav⟩ := hv
      have := hub a.font_size (by simpa using List.mem_map_of_mem (fun b => b.font_size) ha)
      rw [← hav, hm]
      exact this
    · intro a ha
      have := hpre a ha
      simpa using this
    · simp only [findTitle, hfp]
      rw [← hm, hr]
  · intro hne hfp
    have ht : findTitle blocks = none := by
      simp only [findTitle, hfp]
    simp [outlineJsonOfBlocks, identify_snd, ht, jsonField, List.find?]

/-- Three page-1 spans; the largest size 16 first occurs on the second span. -/
def w4blocks : List TextSpan :=
  [{ text := "small print", font_size := 10, font_name := "Helvetica", page := 1, y_pos := 5 },
   { text := "Big Title", font_size := 16, font_name := "Helvetica", page := 1, y_pos := 0 },
   { text := "big again", font_size := 16, font_name := "Helvetica", page := 1, y_pos := 9 }]

theorem C4_title_selection_witness :
    ∃ m pre b post,
      w4blocks.filter (fun s => s.page == 1) = pre ++ b :: post ∧
      m ∈ (w4blocks.filter (fun s => s.page == 1)).map (fun s => s.font_size) ∧
      (∀ v ∈ (w4blocks.filter (fun s => s.page == 1)).map (fun s => s.font_size), v ≤ m) ∧
      b.font_size = m ∧
      (∀ a ∈ pre, a.font_size ≠ m) ∧
      findTitle w4blocks = some ⟨b.text, 1⟩ :=
  (C4_title_selection w4blocks).2.1 (by decide)

/-! ### Claim C5 — body size estimation -/

/-- The population of font sizes the body-size estimate is computed over:
sizes strictly below 20, or all sizes when none is below 20 (lines 40–42). -/
def bodySizePopulation (blocks : List TextSpan) : List Rat :=
  let sizesF := (blocks.filter (fun b => b.font_size < 20)).map (fun b => b.font_size)
  if sizesF = [] then blocks.map (fun b => b.font_size) else sizesF

/-- The left fold underlying `modeFirst`, abstracted over the weight
function. -/
def argmaxFirst (f : Rat → Nat) (x : Rat) (xs : List Rat) : Rat :=
  xs.foldl (fun best v => if f v > f best then v else best) x

/-- The fold keeps the earliest element of maximal weight: the result splits
the list with every element before it of strictly smaller weight, and no
element anywhere of larger weight. -/
theorem argmaxFirst_spec (f : Rat → Nat) :
    ∀ (xs : List Rat) (x : Rat),
      ∃ pre post,
        x :: xs = pre ++ argmaxFirst f x xs :: post ∧
        (∀ v ∈ x :: xs, f v ≤ f (argmaxFirst f x xs)) ∧
        (∀ a ∈ pre, f a < f (argmaxFirst f x xs)) := by
  intro xs
  induction xs with
  | nil =>
    intro x
    exact ⟨[], [], rfl, by simp [argmaxFirst], by simp⟩
  | cons v t ih =>
    intro x
    have hstep : argmaxFirst f x (v :: t) = argmaxFirst f (if f v > f x then v else x) t := rfl
    by_cases hvx : f v > f x
    · rw [hstep, if_pos hvx]
      obtain ⟨pre, post, he, hub, hstrict⟩ := ih v
      have hvr : f v ≤ f (argmaxFirst f v t) := hub v (List.mem_cons_self _ _)
      refine ⟨x :: pre, post, ?_, ?_, ?_⟩
      · rw [List.cons_append, ← he]
      · intro w hw
        rcases List.mem_cons.mp hw with h | h
        · subst h; exact le_of_lt (lt_of_lt_of_le hvx hvr)
        · exact hub w h
      · intro a ha
        rcases List.mem_cons.mp ha with h | h
        · subst h; exact lt_of_lt_of_le hvx hvr
        · exact hstrict a h
    · rw [hstep, if_neg hvx]
      push_neg at hvx
      obtain ⟨pre, post, he, hub, hstrict⟩ := ih x
      have hxr : f x ≤ f (argmaxFirst f x t) := hub x (List.mem_cons_self _ _)
      cases pre with
      | nil =>
        simp only [List.nil_append] at he
        injection he with hx1 hx2
        refine ⟨[], v :: t, ?_, ?_, by simp⟩
        · simp only [List.nil_append]
          rw [← hx1]
        · intro w hw
          rcases List.mem_cons.mp hw with h | h
          · subst h; exact hxr
          · rcases List.mem_cons.mp h with h2 | h2
            · subst h2; exact le_trans hvx hxr
            · exact hub w (List.mem_cons.mpr (Or.inr h2))
      | cons p0 ptail =>
        rw [List.cons_append] at he
        injection he with h1 h2
        have hp0 : f x < f (argmaxFirst f x t) := by
          have := hstrict p0 (List.mem_cons_self _ _)
          rw [← h1] at this
          exact this
        refine ⟨x :: v :: ptail, post, ?_, ?_, ?_⟩
        · rw [List.cons_append, List.cons_append, ← h2]
        · intro w hw
          rcases List.mem_cons.mp hw with h | h
          · subst h; exact hxr
          · rcases List.mem_cons.mp h with h2 | h2
            · subst h2; exact le_trans hvx hxr
            · exact hub w (List.mem_cons.mpr (Or.inr h2))
        · intro a ha
          rcases List.mem_cons.mp ha with h | h
          · subst h; exact hp0
          · rcases List.mem_cons.mp h with h2 | h2
            · subst h2; exact lt_of_le_of_lt hvx hp0
            · exact hstrict a (List.mem_cons.mpr (Or.inr h2))

/-- C5: the estimator returns `(12, "default")` on an empty span sequence;
otherwise its size component is drawn from the filtered population (sizes
below 20, with fallback to all sizes), has maximal multiplicity there, and is
the first element of the population achieving that multiplicity. -/
theorem C5_body_size (blocks : List TextSpan) :
    (blocks = [] → get_body_text_style blocks = (12, "default")) ∧
    (blocks ≠ [] →
      bodySizePopulation blocks ≠ [] ∧
      ∃ pre post,
        bodySizePopulation blocks = pre ++ (get_body_text_style blocks).1 :: post ∧
        (∀ v ∈ bodySizePopulation blocks,
          (bodySizePopulation blocks).count v
            ≤ (bodySizePopulation blocks).count (get_body_text_style blocks).1) ∧
        (∀ a ∈ pre,
          (bodySizePopulation blocks).count a
            < (bodySizePopulation blocks).count (get_body_text_style blocks).1)) := by
  constructor
  · intro h
    simp [get_body_text_style, h]
  · intro hne
    have hpop : bodySizePopulation blocks ≠ [] := by
      simp only [bodySizePopulation]
      split
      · simpa using hne
      · assumption
    have hbody : (get_body_text_style blocks).1 = modeFirst (bodySizePopulation blocks) := by
      simp only [get_body_text_style, if_neg hne, bodySizePopulation]
    obtain ⟨s0, rest, hs⟩ := List.exists_cons_of_ne_nil hpop
    obtain ⟨pre, post, he, hub, hstrict⟩ :=
      argmaxFirst_spec (fun v => (bodySizePopulation blocks).count v) rest s0
    have hmf : modeFirst (bodySizePopulation blocks)
        = argmaxFirst (fun v => (bodySizePopulation blocks).count v) s0 rest := by
      rw [hs]
      rfl
    refine ⟨hpop, pre, post, ?_, ?_, ?_⟩
    · rw [hbody, hmf]
      conv_lhs => rw [hs]
      exact he
    · intro v hv
      rw [hbody, hmf]
      rw [hs] at hv
      exact hub v hv
    · intro a ha
      rw [hbody, hmf]
      exact hstrict a ha

/-- Spans with sizes 14, 12, 12 and an oversized 25: the filtered population
is `[14, 12, 12]`, whose first maximal-multiplicity value is 12, preceded by
the strictly rarer 14. -/
def w5blocks : List TextSpan :=
  [{ text := "heading", font_size := 14, font_name := "F", page := 1, y_pos := 0 },
   { text := "body one", font_size := 12, font_name := "F", page := 1, y_pos := 10 },
   { text := "body two", font_size := 12, font_name := "F", page := 1, y_pos := 20 },
   { text := "huge title", font_size := 25, font_name := "F", page := 1, y_pos := 30 }]

theorem C5_body_size_witness :
    bodySizePopulation w5blocks ≠ [] ∧
    ∃ pre post,
      bodySizePopulation w5blocks = pre ++ (get_body_text_style w5blocks).1 :: post ∧
      (∀ v ∈ bodySizePopulation w5blocks,
        (bodySizePopulation w5blocks).count v
          ≤ (bodySizePopulation w5blocks).count (get_body_text_style w5blocks).1) ∧
      (∀ a ∈ pre,
        (bodySizePopulation w5blocks).count a
          < (bodySizePopulation w5blocks).count (get_body_text_style w5blocks).1) :=
  (C5_body_size w5blocks).2 (by decide)

/-! ### Claim C1 — the scoring rubric -/

/-- Claim-side restatement of the rubric: the score is the plain sum of five
independent indicator terms (+2 oversized, +1 bold, +5 numbering pattern,
+1 short, +1 all-caps). -/
def specScore (b : TextSpan) (body_size : Rat) : Nat :=
  (if b.font_size > body_size + 1 then 2 else 0)
  + (if strContainsSub "bold" (lowerAscii b.font_name) then 1 else 0)
  + (if headingPatternMatches b.text then 5 else 0)
  + (if countWords b.text < 15 then 1 else 0)
  + (if pyIsUpper b.text && decide (b.text.length > 2) then 1 else 0)

/-- The sequentially accumulated score of the source equals the rubric sum. -/
theorem scoreOf_eq_specScore (b : TextSpan) (body_size : Rat) :
    scoreOf b body_size = specScore b body_size := by
  unfold scoreOf specScore
  split_ifs <;> rfl

/-- C1: every span that is considered (it is in the sequence and not excluded
as the title) is scored by the five-signal sum, and becomes a heading
candidate exactly when that sum reaches 4; in particular a long (≥ 15 words)
span that is not oversized, not bold and not all-caps, but starts with a
numbering/letter pattern, scores exactly 5 and is a candidate. -/
theorem C1_scoring (blocks : List TextSpan) (body_size : Rat) (b : TextSpan) :
    (b ∈ blocks → titleSkip (findTitle blocks) b = false →
      (scoreOf b body_size = specScore b body_size ∧
       (b ∈ headingCandidates blocks body_size (findTitle blocks) ↔
         4 ≤ specScore b body_size))) ∧
    (b ∈ blocks → titleSkip (findTitle blocks) b = false →
     ¬ b.font_size > body_size + 1 →
     strContainsSub "bold" (lowerAscii b.font_name) = false →
     headingPatternMatches b.text = true →
     ¬ countWords b.text < 15 →
     (pyIsUpper b.text && decide (b.text.length > 2)) = false →
     specScore b body_size = 5 ∧
     b ∈ headingCandidates blocks body_size (findTitle blocks)) := by
  have hmem : b ∈ blocks → titleSkip (findTitle blocks) b = false →
      (b ∈ headingCandidates blocks body_size (findTitle blocks) ↔
        4 ≤ specScore b body_size) := by
    intro hb hskip
    unfold headingCandidates
    rw [List.mem_filter]
    rw [hskip, scoreOf_eq_specScore]
    simp [hb, ge_iff_le]
  constructor
  · intro hb hskip
    exact ⟨scoreOf_eq_specScore b body_size, hmem hb hskip⟩
  · intro hb hskip h1 h2 h3 h4 h5
    have hs : specScore b body_size = 5 := by
      unfold specScore
      rw [if_neg h1, if_neg (by simp [h2]), if_pos h3, if_neg h4, if_neg (by simp [h5])]
    exact ⟨hs, (hmem hb hskip).mpr (by rw [hs]; omega)⟩

/-- A 15-word paragraph on page 2 starting with the letter pattern `A.`,
with body-sized, non-bold, mixed-case text. -/
def w1span : TextSpan :=
  { text := "A. one two three four five six seven eight nine ten eleven twelve thirteen fourteen",
    font_size := 12, font_name := "Helvetica", page := 2, y_pos := 50 }

/-- A one-span sequence with no page-1 span, so no title is selected. -/
def w1blocks : List TextSpan := [w1span]

theorem C1_scoring_witness :
    specScore w1span 12 = 5 ∧
    w1span ∈ headingCandidates w1blocks 12 (findTitle w1blocks) :=
  (C1_scoring w1blocks 12 w1span).2 (List.mem_singleton.mpr rfl) (by decide)
    (by norm_num [w1span]) (by decide) (by decide) (by decide) (by decide)

/-! ### Claim C2 — level classification by distinct-size rank -/

/-- Instances for descending sorts of rationals. -/
instance : IsTotal Rat (fun a b => b ≤ a) :=
  ⟨fun a b => le_total b a⟩

instance : IsTrans Rat (fun a b => b ≤ a) :=
  ⟨fun _ _ _ h1 h2 => le_trans h2 h1⟩

/-- The distinct candidate styles are sorted in descending order. -/
theorem classStyles_sorted (cands : List TextSpan) :
    List.Sorted (fun a b : Rat => b ≤ a) (classStyles cands) :=
  List.sorted_insertionSort _ _

/-- The distinct candidate styles contain no duplicates. -/
theorem classStyles_nodup (cands : List TextSpan) :
    (classStyles cands).Nodup :=
  (List.perm_insertionSort _ _).symm.nodup (List.nodup_dedup _)

/-- The distinct candidate styles are strictly decreasing. -/
theorem classStyles_strict (cands : List TextSpan) :
    List.Pairwise (fun a b : Rat => b < a) (classStyles cands) :=
  ((classStyles_sorted cands).and (classStyles_nodup cands)).imp
    (fun h => lt_of_le_of_ne h.1 (Ne.symm h.2))

/-- `styleMapGo` finds the element at index `i` of a duplicate-free key list
and reports the level for rank `k + i`. -/
theorem styleMapGo_get (sz : Rat) :
    ∀ (l : List Rat) (k : Nat), l.Nodup →
      ∀ i, ∀ hi : i < l.length, l.get ⟨i, hi⟩ = sz →
        styleMapGo sz l k = some ("H" ++ toString (k + i + 1)) := by
  intro l
  induction l with
  | nil =>
    intro k _ i hi
    simp at hi
  | cons s rest ih =>
    intro k hnd i hi hget
    cases i with
    | zero =>
      simp only [List.get] at hget
      simp [styleMapGo, hget]
    | succ j =>
      have hj : j < rest.length := Nat.succ_lt_succ_iff.mp hi
      have hget2 : rest.get ⟨j, hj⟩ = sz := by simpa using hget
      have hs : s ≠ sz := by
        intro he
        exact (List.nodup_cons.mp hnd).1 (he ▸ hget2 ▸ List.get_mem rest j hj)
      have hrec := ih (k + 1) (List.nodup_cons.mp hnd).2 j hj hget2
      have harith : k + 1 + j + 1 = k + (j + 1) + 1 := by omega
      rw [harith] at hrec
      simpa [styleMapGo, hs] using hrec

/-- `styleMapGo` succeeds exactly on the members of the key list. -/
theorem styleMapGo_isSome (sz : Rat) :
    ∀ (l : List Rat) (k : Nat), (styleMapGo sz l k).isSome = true ↔ sz ∈ l := by
  intro l
  induction l with
  | nil =>
    intro k
    simp [styleMapGo]
  | cons s rest ih =>
    intro k
    by_cases hs : s = sz
    · simp [styleMapGo, hs]
    · simp only [styleMapGo, if_neg hs, ih (k + 1), List.mem_cons]
      constructor
      · exact fun h => Or.inr h
      · rintro (h | h)
        · exact absurd h.symm hs
        · exact h

/-- Inversion for `styleMapGo`: a successful lookup names an index of the key
list and the level for its rank. -/
theorem styleMapGo_eq_some (sz : Rat) :
    ∀ (l : List Rat) (k : Nat) (lv : String), styleMapGo sz l k = some lv →
      ∃ i, ∃ hi : i < l.length, l.get ⟨i, hi⟩ = sz ∧ lv = "H" ++ toString (k + i + 1) := by
  intro l
  induction l with
  | nil =>
    intro k lv h
    simp [styleMapGo] at h
  | cons s rest ih =>
    intro k lv h
    by_cases hs : s = sz
    · refine ⟨0, by simp, by simpa using hs, ?_⟩
      simp only [styleMapGo, if_pos hs, Option.some.injEq] at h
      rw [← h]
    · simp only [styleMapGo, if_neg hs] at h
      obtain ⟨i, hi, hget, hlv⟩ := ih (k + 1) lv h
      refine ⟨i + 1, Nat.succ_lt_succ hi, by simpa using hget, ?_⟩
      rw [hlv]
      have harith : k + 1 + i + 1 = k + (i + 1) + 1 := by omega
      rw [harith]

/-- Every heading built by the classifier carries one of the three levels. -/
theorem leveledHeadings_levels (cands : List TextSpan) :
    ∀ h ∈ leveledHeadings cands,
      h.level = "H1" ∨ h.level = "H2" ∨ h.level = "H3" := by
  intro h hmem
  simp only [leveledHeadings, List.mem_filterMap] at hmem
  obtain ⟨b, _, hb⟩ := hmem
  rw [Option.map_eq_some'] at hb
  obtain ⟨lv, hlook, hrec⟩ := hb
  obtain ⟨i, hi, _, hlv⟩ := styleMapGo_eq_some _ _ _ _ hlook
  have hlvl : h.level = lv := by rw [← hrec]
  have hlen3 : ((classStyles cands).take 3).length ≤ 3 := by
    rw [List.length_take]
    exact min_le_left _ _
  have hi3 : i < 3 := lt_of_lt_of_le hi hlen3
  interval_cases i
  · exact Or.inl (by rw [hlvl, hlv]; decide)
  · exact Or.inr (Or.inl (by rw [hlvl, hlv]; decide))
  · exact Or.inr (Or.inr (by rw [hlvl, hlv]; decide))

/-- Every heading produced by `identify_and_classify_headings` comes from the
leveled candidate list (the sort at line 116 only permutes it). -/
theorem identify_fst_subset (blocks : List TextSpan) (body_size : Rat) :
    ∀ h ∈ (identify_and_classify_headings blocks body_size).1,
      h ∈ leveledHeadings (headingCandidates blocks body_size (findTitle blocks)) := by
  intro h hm
  simp only [identify_and_classify_headings] at hm
  split at hm
  · simp at hm
  · exact (List.perm_insertionSort hLE _).mem_iff.mp hm

/-- C2: the classifier maps the i-th largest distinct candidate font size
(for i = 0, 1, 2) to level `H(i+1)`; a candidate font size receives a level
exactly when it is among the top 3 distinct sizes, so candidates outside
them are dropped; every produced level is H1, H2 or H3 (so at most three
distinct levels reach the outline); and the font size carrying H1 strictly
exceeds the one carrying H2, which strictly exceeds the one carrying H3. -/
theorem C2_level_classification (cands : List TextSpan) :
    (∀ i sz, i < 3 → (classStyles cands)[i]? = some sz →
      styleMapLookup (classStyles cands) sz = some ("H" ++ toString (i + 1))) ∧
    (∀ sz : Rat, (styleMapLookup (classStyles cands) sz).isSome = true ↔
      sz ∈ (classStyles cands).take 3) ∧
    (∀ b ∈ cands,
      ((styleMapLookup (classStyles cands) b.font_size).isSome = true ↔
        b.font_size ∈ (classStyles cands).take 3)) ∧
    (∀ h ∈ leveledHeadings cands,
      h.level = "H1" ∨ h.level = "H2" ∨ h.level = "H3") ∧
    (∀ x y : Rat, styleMapLookup (classStyles cands) x = some "H1" →
      styleMapLookup (classStyles cands) y = some "H2" → y < x) ∧
    (∀ x y : Rat, styleMapLookup (classStyles cands) x = some "H2" →
      styleMapLookup (classStyles cands) y = some "H3" → y < x) ∧
    (∀ (blocks : List TextSpan) (body_size : Rat),
      ∀ h ∈ (identify_and_classify_headings blocks body_size).1,
        h.level = "H1" ∨ h.level = "H2" ∨ h.level = "H3") := by
  have hidx : ∀ (z : Rat) (lv : String), styleMapLookup (classStyles cands) z = some lv →
      ∃ i, ∃ hi : i < ((classStyles cands).take 3).length,
        ((classStyles cands).take 3).get ⟨i, hi⟩ = z ∧ i < 3 ∧
        lv = "H" ++ toString (i + 1) := by
    intro z lv hz
    obtain ⟨i, hi, hget, hlv⟩ := styleMapGo_eq_some z _ 0 lv hz
    refine ⟨i, hi, hget,
      lt_of_lt_of_le hi (by rw [List.length_take]; exact min_le_left _ _), ?_⟩
    rwa [Nat.zero_add] at hlv
  refine ⟨?_, ?_, ?_, leveledHeadings_levels cands, ?_, ?_, ?_⟩
  · intro i sz h3 hget
    obtain ⟨hi, hval⟩ := List.getElem?_eq_some.mp hget
    have hnd : ((classStyles cands).take 3).Nodup :=
      (List.take_sublist 3 _).nodup (classStyles_nodup cands)
    have hitake : i < ((classStyles cands).take 3).length := by
      rw [List.length_take]
      exact lt_min h3 hi
    have hgt : ((classStyles cands).take 3).get ⟨i, hitake⟩ = sz := by
      rw [List.get_eq_getElem, List.getElem_take]
      exact hval
    have hrun := styleMapGo_get sz _ 0 hnd i hitake hgt
    rw [Nat.zero_add] at hrun
    exact hrun
  · intro sz
    exact styleMapGo_isSome sz _ 0
  · intro b _
    exact styleMapGo_isSome b.font_size _ 0
  · intro x y hx hy
    obtain ⟨i, hi, hgx, hi3, hlvx⟩ := hidx x "H1" hx
    obtain ⟨j, hj, hgy, hj3, hlvy⟩ := hidx y "H2" hy
    have hieq : i = 0 := by
      interval_cases i
      · rfl
      · exact absurd hlvx (by decide)
      · exact absurd hlvx (by decide)
    have hjeq : j = 1 := by
      interval_cases j
      · exact absurd hlvy (by decide)
      · rfl
      · exact absurd hlvy (by decide)
    subst hieq
    subst hjeq
    have hlen0 : (0 : Nat) < (classStyles cands).length := by
      have h0 := hi
      rw [List.length_take, lt_min_iff] at h0
      exact h0.2
    have hlen1 : (1 : Nat) < (classStyles cands).length := by
      have h1 := hj
      rw [List.length_take, lt_min_iff] at h1
      exact h1.2
    have hx2 : (classStyles cands).get ⟨0, hlen0⟩ = x := by
      rw [← hgx, List.get_eq_getElem, List.get_eq_getElem, List.getElem_take]
    have hy2 : (classStyles cands).get ⟨1, hlen1⟩ = y := by
      rw [← hgy, List.get_eq_getElem, List.get_eq_getElem, List.getElem_take]
    have hpw := List.pairwise_iff_get.mp (classStyles_strict cands)
      ⟨0, hlen0⟩ ⟨1, hlen1⟩ (Fin.mk_lt_mk.mpr (by omega))
    rw [hx2, hy2] at hpw
    exact hpw
  · intro x y hx hy
    obtain ⟨i, hi, hgx, hi3, hlvx⟩ := hidx x "H2" hx
    obtain ⟨j, hj, hgy, hj3, hlvy⟩ := hidx y "H3" hy
    have hieq : i = 1 := by
      interval_cases i
      · exact absurd hlvx (by decide)
      · rfl
      · exact absurd hlvx (by decide)
    have hjeq : j = 2 := by
      interval_cases j
      · exact absurd hlvy (by decide)
      · exact absurd hlvy (by decide)
      · rfl
    subst hieq
    subst hjeq
    have hlen1 : (1 : Nat) < (classStyles cands).length := by
      have h1 := hi
      rw [List.length_take, lt_min_iff] at h1
      exact h1.2
    have hlen2 : (2 : Nat) < (classStyles cands).length := by
      have h2 := hj
      rw [List.length_take, lt_min_iff] at h2
      exact h2.2
    have hx2 : (classStyles cands).get ⟨1, hlen1⟩ = x := by
      rw [← hgx, List.get_eq_getElem, List.get_eq_getElem, List.getElem_take]
    have hy2 : (classStyles cands).get ⟨2, hlen2⟩ = y := by
      rw [← hgy, List.get_eq_getElem, List.get_eq_getElem, List.getElem_take]
    have hpw := List.pairwise_iff_get.mp (classStyles_strict cands)
      ⟨1, hlen1⟩ ⟨2, hlen2⟩ (Fin.mk_lt_mk.mpr (by omega))
    rw [hx2, hy2] at hpw
    exact hpw
  · intro blocks body_size h hm
    exact leveledHeadings_levels _ h (identify_fst_subset blocks body_size h hm)

/-- Four candidates with the distinct sizes 18, 16, 14, 12 of Scenario E. -/
def w2cands : List TextSpan :=
  [{ text := "1. A", font_size := 18, font_name := "F", page := 1, y_pos := 0 },
   { text := "1.1 B", font_size := 16, font_name := "F", page := 1, y_pos := 10 },
   { text := "1.1.1 C", font_size := 14, font_name := "F", page := 2, y_pos := 0 },
   { text := "1.1.1.1 D", font_size := 12, font_name := "F", page := 2, y_pos := 10 }]

theorem C2_level_classification_witness :
    styleMapLookup (classStyles w2cands) 16 = some ("H" ++ toString (1 + 1)) ∧
    ((16 : Rat) < 18) ∧ ((14 : Rat) < 16) ∧
    ((styleMapLookup (classStyles w2cands) (12 : Rat)).isSome = true ↔
      (12 : Rat) ∈ (classStyles w2cands).take 3) :=
  ⟨(C2_level_classification w2cands).1 1 16 (by decide) (by decide),
   (C2_level_classification w2cands).2.2.2.2.1 18 16 (by decide) (by decide),
   (C2_level_classification w2cands).2.2.2.2.2.1 16 14 (by decide) (by decide),
   (C2_level_classification w2cands).2.1 12⟩

/-! ### Claim C6 — reading order and stability of the final sort -/

/-- Stability of the embedded sort, in filter form: for any predicate that
only selects headings with one fixed sort key, sorting does not change the
selected subsequence. -/
theorem insertionSort_filter_fixed (l : List Heading) (p : Heading → Bool)
    (hp : ∀ a b : Heading, p a = true → p b = true → hLE a b) :
    (List.insertionSort hLE l).filter p = l.filter p := by
  have hpw : List.Pairwise hLE (l.filter p) := by
    apply List.pairwise_of_forall_mem_list
    intro a ha b hb
    exact hp a b (List.mem_filter.mp ha).2 (List.mem_filter.mp hb).2
  have hsub : List.Sublist (l.filter p) (List.insertionSort hLE l) :=
    List.sublist_insertionSort hpw (List.filter_sublist l)
  have hsub2 : List.Sublist (l.filter p) ((List.insertionSort hLE l).filter p) := by
    have hff : (l.filter p).filter p = l.filter p := by
      rw [List.filter_filter]
      exact List.filter_congr (fun x _ => Bool.and_self (p x))
    have := hsub.filter p
    rwa [hff] at this
  have hperm : List.Perm ((List.insertionSort hLE l).filter p) (l.filter p) :=
    (List.perm_insertionSort hLE l).filter p
  exact (hsub2.eq_of_length hperm.length_eq.symm).symm

/-- C6: the final heading list is sorted (non-decreasing) in the
lexicographic `(page, y_pos)` order, and for every fixed key `(pg, y)` the
subsequence of headings carrying that key is exactly the subsequence of the
pre-sort leveled list (candidate order, which is extraction order) — ties
keep their original relative order. -/
theorem C6_reading_order (blocks : List TextSpan) (body_size : Rat) :
    List.Sorted hLE (identify_and_classify_headings blocks body_size).1 ∧
    ∀ (pg : Nat) (y : Rat),
      ((identify_and_classify_headings blocks body_size).1).filter
          (fun h => h.page == pg && h.y_pos == y)
        = (leveledHeadings (headingCandidates blocks body_size (findTitle blocks))).filter
          (fun h => h.page == pg && h.y_pos == y) := by
  constructor
  · simp only [identify_and_classify_headings]
    split
    · exact List.sorted_nil
    · exact List.sorted_insertionSort hLE _
  · intro pg y
    simp only [identify_and_classify_headings]
    split
    · rename_i hc
      rw [hc]
      simp [leveledHeadings]
    · apply insertionSort_filter_fixed
      intro a b ha hb
      rw [Bool.and_eq_true, beq_iff_eq, beq_iff_eq] at ha hb
      exact Or.inr ⟨ha.1.trans hb.1.symm, le_of_eq (ha.2.trans hb.2.symm)⟩

/-! ### Claim C7 — title exclusion -/

/-- C7: when a title is selected, every page-1 span whose text equals the
title text is excluded from candidacy (the guard at lines 76–77), and
consequently no heading of the final outline sits on page 1 with the title's
text. -/
theorem C7_title_exclusion (blocks : List TextSpan) (body_size : Rat)
    (t : TitleInfo) (ht : findTitle blocks = some t) :
    (∀ b ∈ blocks, b.page = 1 → b.text = t.text →
      b ∉ headingCandidates blocks body_size (findTitle blocks)) ∧
    (∀ h ∈ (identify_and_classify_headings blocks body_size).1,
      ¬(h.page = 1 ∧ h.text = t.text)) := by
  have hskip : ∀ b : TextSpan, b.page = 1 → b.text = t.text →
      titleSkip (findTitle blocks) b = true := by
    intro b hp htxt
    rw [ht]
    simp [titleSkip, htxt, hp]
  constructor
  · intro b _ hp htxt hmem
    have hpred := (List.mem_filter.mp hmem).2
    rw [Bool.and_eq_true, Bool.not_eq_true'] at hpred
    rw [hskip b hp htxt] at hpred
    exact absurd hpred.1 (by decide)
  · intro h hm hcl
    obtain ⟨hp1, htx⟩ := hcl
    have hlv := identify_fst_subset blocks body_size h hm
    simp only [leveledHeadings, List.mem_filterMap] at hlv
    obtain ⟨b, hbc, hbrec⟩ := hlv
    rw [Option.map_eq_some'] at hbrec
    obtain ⟨lv, _, hrec⟩ := hbrec
    have hbtext : b.text = h.text := by rw [← hrec]
    have hbpage : b.page = h.page := by rw [← hrec]
    have hpred := (List.mem_filter.mp hbc).2
    rw [Bool.and_eq_true, Bool.not_eq_true'] at hpred
    rw [hskip b (hbpage.trans hp1) (hbtext.trans htx)] at hpred
    exact absurd hpred.1 (by decide)

/-- A page-1 sequence whose largest span `BIG TITLE` would score highly
(all-caps, short, oversized) but is the selected title. -/
def w7title : TextSpan :=
  { text := "BIG TITLE", font_size := 20, font_name := "Helvetica", page := 1, y_pos := 0 }

def w7blocks : List TextSpan :=
  [w7title,
   { text := "plain body text", font_size := 12, font_name := "Helvetica", page := 1, y_pos := 40 }]

theorem C7_title_exclusion_witness :
    w7title ∉ headingCandidates w7blocks 12 (findTitle w7blocks) :=
  (C7_title_exclusion w7blocks 12 ⟨"BIG TITLE", 1⟩ (by decide)).1
    w7title (List.mem_cons_self _ _) rfl rfl

/-! ### Claim C9 — section grouping -/

/-- Claim-side: the span lies strictly after the heading's `(page, y_pos)`
position. -/
def claimAfter (h : Heading) (b : TextSpan) : Prop :=
  h.page < b.page ∨ (b.page = h.page ∧ h.y_pos < b.y_pos)

/-- Claim-side: the span lies strictly before the next heading's position
(always true when there is no next heading). -/
def claimBefore (next : Option Heading) (b : TextSpan) : Prop :=
  match next with
  | none => True
  | some nh => b.page < nh.page ∨ (b.page = nh.page ∧ b.y_pos < nh.y_pos)

/-- Claim-side: the span is itself a recognised heading (same text and
page as some heading). -/
def claimIsHeading (headings : List Heading) (b : TextSpan) : Prop :=
  ∃ h ∈ headings, h.text = b.text ∧ h.page = b.page

instance (h : Heading) (b : TextSpan) : Decidable (claimAfter h b) :=
  inferInstanceAs (Decidable (_ ∨ _))

instance instDecClaimBefore : (next : Option Heading) → (b : TextSpan) →
    Decidable (claimBefore next b)
  | none, _ => isTrue trivial
  | some _, _ => inferInstanceAs (Decidable (_ ∨ _))

instance (headings : List Heading) (b : TextSpan) : Decidable (claimIsHeading headings b) :=
  inferInstanceAs (Decidable (∃ h ∈ headings, h.text = b.text ∧ h.page = b.page))

/-- Concatenation of a list of strings (each section line already carries its
trailing newline). -/
def joinAll : List String → String
  | [] => ""
  | s :: rest => s ++ joinAll rest

/-- The accumulation loop of lines 132–140 appends exactly the texts of the
spans passing the filter, each followed by a newline. -/
theorem foldl_content (p : TextSpan → Bool) (bs : List TextSpan) (init : String) :
    bs.foldl (fun acc b => if p b then acc ++ b.text ++ "\n" else acc) init
      = init ++ joinAll ((bs.filter p).map (fun b => b.text ++ "\n")) := by
  induction bs generalizing init with
  | nil => simp [joinAll]
  | cons b t ih =>
    by_cases hb : p b = true
    · simp only [List.foldl_cons, hb, if_true, List.filter_cons, ite_true, List.map_cons, joinAll]
      rw [ih]
      simp [String.append_assoc]
    · rw [Bool.not_eq_true] at hb
      simp [hb, ih]

/-- The boundary test of the source equals the claim-side predicate. -/
theorem sectionPred_eq (headings : List Heading) (h : Heading) (next : Option Heading)
    (b : TextSpan) :
    (isAfterStart h b && isBeforeEnd next b && !isHeadingBlock headings b)
      = decide (claimAfter h b ∧ claimBefore next b ∧ ¬ claimIsHeading headings b) := by
  have h1 : isAfterStart h b = true ↔ claimAfter h b := by
    simp [isAfterStart, claimAfter]
  have h2 : isBeforeEnd next b = true ↔ claimBefore next b := by
    cases next with
    | none => simp [isBeforeEnd, claimBefore]
    | some nh => simp [isBeforeEnd, claimBefore]
  have h3 : isHeadingBlock headings b = true ↔ claimIsHeading headings b := by
    simp [isHeadingBlock, claimIsHeading, List.any_eq_true]
  rw [Bool.eq_iff_iff]
  simp only [Bool.and_eq_true, Bool.not_eq_true', decide_eq_true_eq, ← h1, ← h2, ← h3]
  constructor
  · rintro ⟨⟨ha, hb2⟩, hn⟩
    exact ⟨ha, hb2, by simp [hn]⟩
  · rintro ⟨ha, hb2, hn⟩
    exact ⟨⟨ha, hb2⟩, by simpa using hn⟩

/-- The per-heading content equals the trimmed newline-joined texts of the
spans selected by the claim-side predicate. -/
theorem sectionContent_eq_filter (blocks : List TextSpan) (headings : List Heading)
    (h : Heading) (next : Option Heading) :
    sectionContent blocks headings h next
      = pyStrip (joinAll ((blocks.filter (fun b =>
          decide (claimAfter h b ∧ claimBefore next b ∧ ¬ claimIsHeading headings b))).map
            (fun b => b.text ++ "\n"))) := by
  unfold sectionContent
  rw [foldl_content, String.empty_append,
    List.filter_congr (fun b _ => sectionPred_eq headings h next b)]

theorem sectionsAux_length (blocks : List TextSpan) (all : List Heading) :
    ∀ hs : List Heading, (sectionsAux blocks all hs).length = hs.length := by
  intro hs
  induction hs with
  | nil => rfl
  | cons h t ih => simp [sectionsAux, ih]

theorem sectionsAux_getElem (blocks : List TextSpan) (all : List Heading) :
    ∀ (hs : List Heading) (i : Nat), ∀ hi : i < hs.length,
      (sectionsAux blocks all hs)[i]? =
        some { heading_text := (hs.get ⟨i, hi⟩).text,
               heading_level := (hs.get ⟨i, hi⟩).level,
               page := (hs.get ⟨i, hi⟩).page,
               content := sectionContent blocks all (hs.get ⟨i, hi⟩) hs[i + 1]? } := by
  intro hs
  induction hs with
  | nil =>
    intro i hi
    simp at hi
  | cons h rest ih =>
    intro i hi
    cases i with
    | zero =>
      simp [sectionsAux, List.head?_eq_getElem?]
    | succ j =>
      simp only [sectionsAux, List.getElem?_cons_succ]
      rw [ih j (Nat.succ_lt_succ_iff.mp hi)]
      simp

/-- C9: for a non-empty heading list the grouper emits one section per
heading, in order; section `i` carries heading `i`'s text, level and page,
and its content is the newline-joined, outer-trimmed concatenation, in
extraction order, of exactly the spans strictly after heading `i`'s
position, strictly before heading `i+1`'s position (unbounded for the last
heading), and not themselves recognised headings. -/
theorem C9_section_grouping (blocks : List TextSpan) (headings : List Heading)
    (hne : headings ≠ []) :
    (group_text_into_sections blocks headings).length = headings.length ∧
    ∀ i, ∀ hi : i < headings.length,
      (group_text_into_sections blocks headings)[i]? =
        some { heading_text := (headings.get ⟨i, hi⟩).text,
               heading_level := (headings.get ⟨i, hi⟩).level,
               page := (headings.get ⟨i, hi⟩).page,
               content := pyStrip (joinAll ((blocks.filter (fun b =>
                   decide (claimAfter (headings.get ⟨i, hi⟩) b ∧
                     claimBefore headings[i + 1]? b ∧
                     ¬ claimIsHeading headings b))).map (fun b => b.text ++ "\n"))) } := by
  have hg : group_text_into_sections blocks headings = sectionsAux blocks headings headings := by
    simp [group_text_into_sections, hne]
  constructor
  · rw [hg]
    exact sectionsAux_length blocks headings headings
  · intro i hi
    rw [hg, sectionsAux_getElem blocks headings headings i hi,
      sectionContent_eq_filter blocks headings (headings.get ⟨i, hi⟩) headings[i + 1]?]

def w9headings : List Heading :=
  [{ level := "H1", text := "1. Intro", page := 1, y_pos := 10 },
   { level := "H1", text := "2. Body", page := 1, y_pos := 50 }]

def w9blocks : List TextSpan :=
  [{ text := "1. Intro", font_size := 14, font_name := "F", page := 1, y_pos := 10 },
   { text := "alpha", font_size := 12, font_name := "F", page := 1, y_pos := 20 },
   { text := "2. Body", font_size := 14, font_name := "F", page := 1, y_pos := 50 },
   { text := "beta", font_size := 12, font_name := "F", page := 1, y_pos := 60 }]

theorem C9_section_grouping_witness :
    (group_text_into_sections w9blocks w9headings).length = w9headings.length ∧
    (group_text_into_sections w9blocks w9headings)[0]? =
      some { heading_text := (w9headings.get ⟨0, by decide⟩).text,
             heading_level := (w9headings.get ⟨0, by decide⟩).level,
             page := (w9headings.get ⟨0, by decide⟩).page,
             content := pyStrip (joinAll ((w9blocks.filter (fun b =>
                 decide (claimAfter (w9headings.get ⟨0, by decide⟩) b ∧
                   claimBefore w9headings[0 + 1]? b ∧
                   ¬ claimIsHeading w9headings b))).map (fun b => b.text ++ "\n"))) } :=
  ⟨(C9_section_grouping w9blocks w9headings (by decide)).1,
   (C9_section_grouping w9blocks w9headings (by decide)).2 0 (by decide)⟩

/-! ### Claim C10 — provenance and shape of outline entries -/

/-- The head of a `dropWhile` result fails the predicate. -/
theorem dropWhile_head_false (p : Char → Bool) :
    ∀ (l : List Char) (c : Char) (cs : List Char), l.dropWhile p = c :: cs → p c = false := by
  intro l
  induction l with
  | nil =>
    intro c cs h
    simp [List.dropWhile] at h
  | cons x t ih =>
    intro c cs h
    rw [List.dropWhile_cons] at h
    by_cases hx : p x = true
    · rw [if_pos hx] at h
      exact ih c cs h
    · rw [if_neg hx] at h
      injection h with h1 _
      rw [Bool.not_eq_true] at hx
      rw [← h1]
      exact hx

/-- Stripping is idempotent. -/
theorem stripChars_idem (cs : List Char) : stripChars (stripChars cs) = stripChars cs := by
  unfold stripChars
  set A := cs.dropWhile isSpaceA with hA
  set B := A.reverse.dropWhile isSpaceA with hB
  have hpre : List.IsPrefix B.reverse A := by
    have hsuf : List.IsSuffix B A.reverse := List.dropWhile_suffix _
    have hrev := hsuf.reverse
    rwa [List.reverse_reverse] at hrev
  have hstep1 : B.reverse.dropWhile isSpaceA = B.reverse := by
    cases hBr : B.reverse with
    | nil => simp
    | cons c bs =>
      rw [List.dropWhile_cons]
      obtain ⟨t, ht⟩ := hpre
      rw [hBr] at ht
      have hcs : cs.dropWhile isSpaceA = c :: (bs ++ t) := by
        rw [← hA, ← ht]
        rfl
      rw [dropWhile_head_false isSpaceA cs c (bs ++ t) hcs]
      simp
  rw [hstep1, List.reverse_reverse, hB, List.dropWhile_idempotent]

/-- Python `strip` is idempotent. -/
theorem pyStrip_idem (s : String) : pyStrip (pyStrip s) = pyStrip s := by
  unfold pyStrip
  rw [show (String.mk (stripChars s.toList)).toList = stripChars s.toList from rfl,
    stripChars_idem]

/-- Every extracted span has a 1-based page and already-stripped, non-empty
text (lines 23–31). -/
theorem extract_spans_wf (doc : ParsedDoc) (lim : Option Nat) :
    ∀ ts ∈ extract_text_blocks doc lim,
      1 ≤ ts.page ∧ pyStrip ts.text = ts.text ∧ ts.text ≠ "" := by
  intro ts hts
  simp only [extract_text_blocks, List.mem_flatMap, List.mem_filterMap] at hts
  obtain ⟨pe, hpe, bl, hbl, ln, hln, sp, hsp, hspe⟩ := hts
  by_cases he : pyStrip sp.text = ""
  · rw [if_pos he] at hspe
    exact absurd hspe (by simp)
  · rw [if_neg he] at hspe
    have hrec := Option.some.inj hspe
    refine ⟨?_, ?_, ?_⟩
    · rw [← hrec]
      exact Nat.le_add_left 1 pe.1
    · rw [← hrec]
      exact pyStrip_idem sp.text
    · rw [← hrec]
      exact he

/-- C10: every entry of the final outline originates from an extracted span
with the same text and page; its level is one of H1, H2, H3; its page is at
least 1; and its text is stripped and non-empty. -/
theorem C10_outline_provenance (doc : ParsedDoc) :
    ∀ e ∈ outlineEntries doc,
      (∃ b ∈ extract_text_blocks doc none, b.text = e.text ∧ b.page = e.page) ∧
      (e.level = "H1" ∨ e.level = "H2" ∨ e.level = "H3") ∧
      1 ≤ e.page ∧ pyStrip e.text = e.text ∧ e.text ≠ "" := by
  intro e he
  simp only [outlineEntries] at he
  split at he
  · simp at he
  · rw [List.mem_map] at he
    obtain ⟨h, hh, herec⟩ := he
    have hin := identify_fst_subset (extract_text_blocks doc none) _ h hh
    simp only [leveledHeadings, List.mem_filterMap] at hin
    obtain ⟨b, hbc, hbrec⟩ := hin
    rw [Option.map_eq_some'] at hbrec
    obtain ⟨lv, _, hrec⟩ := hbrec
    have hbtext : b.text = h.text := by rw [← hrec]
    have hbpage : b.page = h.page := by rw [← hrec]
    have hbmem : b ∈ extract_text_blocks doc none := (List.mem_filter.mp hbc).1
    have hwf := extract_spans_wf doc none b hbmem
    have hetext : e.text = h.text := by rw [← herec]
    have hepage : e.page = h.page := by rw [← herec]
    have helevel : e.level = h.level := by rw [← herec]
    refine ⟨⟨b, hbmem, by rw [hbtext, hetext], by rw [hbpage, hepage]⟩, ?_, ?_, ?_, ?_⟩
    · rw [helevel]
      exact leveledHeadings_levels _ h (identify_fst_subset _ _ h hh)
    · rw [hepage, ← hbpage]
      exact hwf.1
    · rw [hetext, ← hbtext]
      exact hwf.2.1
    · rw [hetext, ← hbtext]
      exact hwf.2.2

/-- Concrete witness document: one page with a large bold title, one bold
numbered heading, and two body lines. -/
def w10span1 : TextSpan :=
  { text := "BIG TITLE", font_size := 20, font_name := "Helvetica-Bold", page := 1, y_pos := 0 }

def w10span2 : TextSpan :=
  { text := "1. Intro", font_size := 14, font_name := "Helvetica-Bold", page := 1, y_pos := 30 }

def w10span3 : TextSpan :=
  { text := "some body text here", font_size := 12, font_name := "Helvetica", page := 1, y_pos := 60 }

def w10span4 : TextSpan :=
  { text := "more body text lines", font_size := 12, font_name := "Helvetica", page := 1, y_pos := 80 }

def w10blocks : List TextSpan := [w10span1, w10span2, w10span3, w10span4]

def w10doc : ParsedDoc :=
  [[[[{ text := "BIG TITLE", size := 20, font := "Helvetica-Bold", y0 := 0 },
      { text := "1. Intro", size := 14, font := "Helvetica-Bold", y0 := 30 },
      { text := "some body text here", size := 12, font := "Helvetica", y0 := 60 },
      { text := "more body text lines", size := 12, font := "Helvetica", y0 := 80 }]]]]

theorem w10_extract : extract_text_blocks w10doc none = w10blocks := by
  decide

theorem w10_body : get_body_text_style w10blocks = (12, "") := by
  decide

theorem w10_title : findTitle w10blocks = some ⟨"BIG TITLE", 1⟩ := by
  decide

theorem w10_score2 : scoreOf w10span2 12 = 9 := by
  have h1 : (w10span2.font_size : Rat) > 12 + 1 := by norm_num [w10span2]
  have h2 : strContainsSub "bold" (lowerAscii w10span2.font_name) = true := by decide
  have h3 : headingPatternMatches w10span2.text = true := by decide
  have h4 : countWords w10span2.text < 15 := by decide
  have h5 : ¬((pyIsUpper w10span2.text && decide (w10span2.text.length > 2)) = true) := by decide
  simp only [scoreOf]
  rw [if_neg h5, if_pos h4, if_pos h3, if_pos h2, if_pos h1]

theorem w10_score3 : scoreOf w10span3 12 = 1 := by
  have h1 : ¬((w10span3.font_size : Rat) > 12 + 1) := by norm_num [w10span3]
  have h2 : ¬(strContainsSub "bold" (lowerAscii w10span3.font_name) = true) := by decide
  have h3 : ¬(headingPatternMatches w10span3.text = true) := by decide
  have h4 : countWords w10span3.text < 15 := by decide
  have h5 : ¬((pyIsUpper w10span3.text && decide (w10span3.text.length > 2)) = true) := by decide
  simp only [scoreOf]
  rw [if_neg h5, if_pos h4, if_neg h3, if_neg h2, if_neg h1]

theorem w10_score4 : scoreOf w10span4 12 = 1 := by
  have h1 : ¬((w10span4.font_size : Rat) > 12 + 1) := by norm_num [w10span4]
  have h2 : ¬(strContainsSub "bold" (lowerAscii w10span4.font_name) = true) := by decide
  have h3 : ¬(headingPatternMatches w10span4.text = true) := by decide
  have h4 : countWords w10span4.text < 15 := by decide
  have h5 : ¬((pyIsUpper w10span4.text && decide (w10span4.text.length > 2)) = true) := by decide
  simp only [scoreOf]
  rw [if_neg h5, if_pos h4, if_neg h3, if_neg h2, if_neg h1]

theorem w10_cands :
    headingCandidates w10blocks 12 (some ⟨"BIG TITLE", 1⟩) = [w10span2] := by
  have ht1 : titleSkip (some ⟨"BIG TITLE", 1⟩) w10span1 = true := by decide
  have ht2 : titleSkip (some ⟨"BIG TITLE", 1⟩) w10span2 = false := by decide
  have ht3 : titleSkip (some ⟨"BIG TITLE", 1⟩) w10span3 = false := by decide
  have ht4 : titleSkip (some ⟨"BIG TITLE", 1⟩) w10span4 = false := by decide
  simp only [headingCandidates]
  simp only [w10blocks, List.filter_cons]
  simp [ht1, ht2, ht3, ht4, w10_score2, w10_score3, w10_score4]

theorem w10_sorted :
    List.insertionSort hLE (leveledHeadings [w10span2])
      = [{ level := "H1", text := "1. Intro", page := 1, y_pos := 30 }] := by
  decide

theorem w10_identify :
    identify_and_classify_headings w10blocks 12
      = ([{ level := "H1", text := "1. Intro", page := 1, y_pos := 30 }],
         some ⟨"BIG TITLE", 1⟩) := by
  simp only [identify_and_classify_headings, w10_title, w10_cands, w10_sorted]
  simp

theorem w10_outline : outlineEntries w10doc = [{ level := "H1", text := "1. Intro", page := 1 }] := by
  simp only [outlineEntries, w10_extract, w10_body, w10_identify]
  simp [w10blocks]

theorem C10_outline_provenance_witness :
    (∃ b ∈ extract_text_blocks w10doc none,
      b.text = ({ level := "H1", text := "1. Intro", page := 1 } : OutlineEntry).text ∧
      b.page = ({ level := "H1", text := "1. Intro", page := 1 } : OutlineEntry).page) ∧
    (({ level := "H1", text := "1. Intro", page := 1 } : OutlineEntry).level = "H1" ∨
     ({ level := "H1", text := "1. Intro", page := 1 } : OutlineEntry).level = "H2" ∨
     ({ level := "H1", text := "1. Intro", page := 1 } : OutlineEntry).level = "H3") ∧
    1 ≤ ({ level := "H1", text := "1. Intro", page := 1 } : OutlineEntry).page ∧
    pyStrip ({ level := "H1", text := "1. Intro", page := 1 } : OutlineEntry).text
      = ({ level := "H1", text := "1. Intro", page := 1 } : OutlineEntry).text ∧
    ({ level := "H1", text := "1. Intro", page := 1 } : OutlineEntry).text ≠ "" :=
  C10_outline_provenance w10doc { level := "H1", text := "1. Intro", page := 1 }
    (by rw [w10_outline]; exact List.mem_singleton.mpr rfl)
